import Mathlib

/-!
Verification development for the music-tools repository.

The definitions below are shallow embeddings of the Python source:

* `src/music_upgrader/status_manager.py` — the per-item status state machine
  (`MusicStatus`, `MusicStateManager`).
* `src/music_upgrader/context_menu.py` — the interactive ignore / unignore
  handlers (`ContextMenuHandler`), operating on the application state.
* `src/music_upgrader/downloader.py` — one step of the batch match pass
  (`match_files_async`).
* `src/music_upgrade.py` and `src/music_upgrader_core_async.py` — the
  rate-limited client (`_check_rate_limit`, `_make_request`), best-match
  selection (`find_best_match`) and the quality-cascade downloader
  (`download_lossless_music`).
* `src/gd_api.py` and `src/music_upgrader/async_gd_api.py` — parameter
  validation of `get_song_url` / `get_album_art`.

Machine floats (similarity scores, timestamps) are modelled as rationals;
Python exceptions are modelled with `Except`; the network is modelled as an
oracle parameter, so that "a network request is issued" is observable.
-/

namespace MusicTools

/-- Status enumeration from `status_manager.py` (`MusicStatus`). -/
inductive MusicStatus where
  | MATCH_PENDING
  | AUTO_MATCHED
  | MANUAL_MATCHED
  | MATCH_FAIL
  | AUTO_DOWNLOAD_COMPLETE
  | MANUAL_DOWNLOAD_COMPLETE
  | DOWNLOAD_FAIL
  | IGNORED
deriving DecidableEq, Repr

open MusicStatus

/-- State of `MusicStateManager`: the current status list and the
pre-ignore backup list (`ignored_status_backup`). -/
structure MusicStateManager where
  status_list : List MusicStatus
  ignored_status_backup : List (Option MusicStatus)
deriving DecidableEq, Repr

namespace MusicStateManager

/-- Constructor `MusicStateManager.__init__`: every item starts
`MATCH_PENDING` with no backup. -/
def init (num_items : ℕ) : MusicStateManager :=
  ⟨List.replicate num_items MATCH_PENDING, List.replicate num_items none⟩

/-- Method `get_status`: the status at a valid index, `none` otherwise. -/
def get_status (m : MusicStateManager) (index : ℕ) : Option MusicStatus :=
  m.status_list[index]?

/-- Method `set_status`: writes the status at a valid index and reports
whether the write happened. -/
def set_status (m : MusicStateManager) (index : ℕ) (status : MusicStatus) :
    MusicStateManager × Bool :=
  if index < m.status_list.length then
    ({ m with status_list := m.status_list.set index status }, true)
  else (m, false)

/-- Method `ignore_item`: at a valid index, saves the current status to the
backup list and sets the status to `IGNORED`.  (No eligibility check is done
here; the interactive layer guards the call with `can_ignore`.) -/
def ignore_item (m : MusicStateManager) (index : ℕ) :
    MusicStateManager × Bool :=
  if index < m.status_list.length then
    ({ status_list := m.status_list.set index IGNORED,
       ignored_status_backup :=
         m.ignored_status_backup.set index m.status_list[index]? }, true)
  else (m, false)

/-- Method `unignore_item`: at a valid index with a non-`None` backup,
restores the backed-up status and clears the backup.  The Python code reads
`ignored_status_backup[index]`; as in every reachable state, both lists are
assumed to have the same length, so the read is modelled with `getElem?`. -/
def unignore_item (m : MusicStateManager) (index : ℕ) :
    MusicStateManager × Bool :=
  if index < m.status_list.length then
    match m.ignored_status_backup[index]? with
    | some (some previous_status) =>
        ({ status_list := m.status_list.set index previous_status,
           ignored_status_backup := m.ignored_status_backup.set index none },
         true)
    | _ => (m, false)
  else (m, false)

/-- Method `can_ignore`: true at a valid index whose status is not one of
the two downloaded states. -/
def can_ignore (m : MusicStateManager) (index : ℕ) : Bool :=
  match m.status_list[index]? with
  | some current_status =>
      !(current_status ∈ [AUTO_DOWNLOAD_COMPLETE, MANUAL_DOWNLOAD_COMPLETE] : Bool)
  | none => false

/-- Method `can_manual_match`: true at a valid index whose status is not
`IGNORED`. -/
def can_manual_match (m : MusicStateManager) (index : ℕ) : Bool :=
  match m.status_list[index]? with
  | some current_status => !(current_status = IGNORED : Bool)
  | none => false

/-- Method `can_auto_match`: true at a valid index whose status is
`MATCH_PENDING` or `MATCH_FAIL`. -/
def can_auto_match (m : MusicStateManager) (index : ℕ) : Bool :=
  match m.status_list[index]? with
  | some current_status =>
      (current_status ∈ [MATCH_PENDING, MATCH_FAIL] : Bool)
  | none => false

/-- Method `can_download`: true at a valid index whose status is
`AUTO_MATCHED` or `MANUAL_MATCHED`; the source also conjoins the (redundant)
condition that the status is not `IGNORED`. -/
def can_download (m : MusicStateManager) (index : ℕ) : Bool :=
  match m.status_list[index]? with
  | some current_status =>
      ((current_status ∈ [AUTO_MATCHED, MANUAL_MATCHED] : Bool)
        && !(current_status = IGNORED : Bool))
  | none => false

/-- Method `can_unignore`: true at a valid index whose status is `IGNORED`. -/
def can_unignore (m : MusicStateManager) (index : ℕ) : Bool :=
  match m.status_list[index]? with
  | some current_status => (current_status = IGNORED : Bool)
  | none => false

end MusicStateManager

/-- A remote search candidate / stored match result: the dictionaries
`{"name": ..., "artist": ..., "id": ...}` used throughout the GUI code.
The `id` is `none` for the failure placeholders (`"id": None`). -/
structure Song where
  name : String
  artist : List String
  id : Option String
deriving DecidableEq, Repr

/-- Python truthiness of `song.get('id')`: `None` and the empty string are
falsy. -/
def usableId : Option String → Bool
  | none => false
  | some s => !s.isEmpty

/-- Python truthiness of `match and match.get('id')` for an optional stored
match dictionary. -/
def usableMatch : Option Song → Bool
  | none => false
  | some song => usableId song.id

/-- Placeholder written by `ContextMenuHandler.ignore_item`:
`{"name": "已忽略", "artist": "", "id": None}` (the empty artist string is
modelled as the empty list). -/
def ignoredPlaceholder : Song := ⟨"已忽略", [], none⟩

/-- Placeholder `{"name": "未找到匹配", "artist": "", "id": None}` used when a
search returns no results. -/
def notFoundPlaceholder : Song := ⟨"未找到匹配", [], none⟩

/-- Placeholder `{"name": "匹配失败", "artist": "", "id": None}` used when a
search raises. -/
def matchFailPlaceholder : Song := ⟨"匹配失败", [], none⟩

/-- The application state touched by the interactive handlers: the status
manager plus the current (`matched_songs`) and original
(`original_matched_songs`) match-result lists of `main_window.py`. -/
structure AppState where
  sm : MusicStateManager
  matched_songs : List (Option Song)
  original_matched_songs : List (Option Song)
deriving DecidableEq, Repr

namespace ContextMenuHandler

/-- Handler `ContextMenuHandler.ignore_item`: overwrites the current match
result with the ignored placeholder, then runs
`MusicStateManager.ignore_item` (backup current status, set `IGNORED`). -/
def ignore_item (s : AppState) (index : ℕ) : AppState :=
  { s with
    matched_songs := s.matched_songs.set index (some ignoredPlaceholder),
    sm := (s.sm.ignore_item index).1 }

/-- Handler `ContextMenuHandler.unignore_item`: runs
`MusicStateManager.unignore_item`, then, when an original match result is
stored at the index, restores `matched_songs[index]` from
`original_matched_songs[index]`; otherwise it launches a remote re-match in
a background thread.  The returned flag is `true` exactly when the remote
re-match was launched (the model stops at that suspension point). -/
def unignore_item (s : AppState) (index : ℕ) : AppState × Bool :=
  let s1 : AppState := { s with sm := (s.sm.unignore_item index).1 }
  match s1.original_matched_songs[index]? with
  | some (some original_result) =>
      ({ s1 with
         matched_songs := s1.matched_songs.set index (some original_result) },
       false)
  | _ => (s1, true)

/-- Menu construction in `ContextMenuHandler.show_context_menu`: the
"忽略此项" (ignore) command is attached only when the current status is not
`IGNORED` and `can_ignore` holds.  `contextMenuIgnore` is the effective
ignore action reachable from the menu: the guarded handler. -/
def contextMenuIgnoreOffered (s : AppState) (index : ℕ) : Bool :=
  !(s.sm.get_status index = some IGNORED : Bool) && s.sm.can_ignore index

/-- Effective interactive ignore action: the handler fires only when the
menu offered it; otherwise nothing happens and no error is raised. -/
def contextMenuIgnore (s : AppState) (index : ℕ) : AppState :=
  if contextMenuIgnoreOffered s index then ignore_item s index else s

end ContextMenuHandler

/-- Outcome of `set_manual_match_result` in `manual_match_window.py`
restricted to the state modelled here: stores the selected result in
`matched_songs` (but not in `original_matched_songs`) and sets the status to
`MANUAL_MATCHED`. -/
def setManualMatchResult (s : AppState) (index : ℕ) (result : Song) :
    AppState :=
  { s with
    matched_songs := s.matched_songs.set index (some result),
    sm := (s.sm.set_status index MANUAL_MATCHED).1 }

/-! ### Best-match selection (`find_best_match`)

The loop of `find_best_match` (identical in `music_upgrade.py` lines 173-227
and `music_upgrader_core_async.py` lines 293-345): a running maximum started
at `best_match = None`, `best_score = -1`, updated on strict improvement
(`total_score > best_score`).  The per-candidate `total_score` (song-name
similarity plus optional artist similarity, each a `SequenceMatcher` ratio in
`[0, 1]`, hence nonnegative) is abstracted as a function `score` into the
rationals; the selection logic does not depend on how the score is computed. -/

/-- Body of the `for result in search_results` loop of `find_best_match`,
threading the `(best_match, best_score)` running state. -/
def findBestLoop {α : Type} (score : α → ℚ) :
    List α → Option α → ℚ → Option α
  | [], best_match, _ => best_match
  | result :: rest, best_match, best_score =>
      if best_score < score result then
        findBestLoop score rest (some result) (score result)
      else
        findBestLoop score rest best_match best_score

/-- Function `find_best_match`: returns `none` for an empty result list,
otherwise runs the strict-improvement loop from `(None, -1)`. -/
def find_best_match {α : Type} (score : α → ℚ) (search_results : List α) :
    Option α :=
  match search_results with
  | [] => none
  | _ => findBestLoop score search_results none (-1)

/-! ### Quality-cascade downloader (`download_lossless_music`)

From `music_upgrade.py` lines 230-306 (the async variant in
`music_upgrader_core_async.py` lines 348-474 has the same tier logic).  The
remote call `client.get_song_url(track_id, source, br)` is abstracted as an
oracle `resolve : ℕ → Except Unit (Option String)` giving, per quality tier,
either the raised transport error or the `song_info.get('url')` field
(`none` when the key is absent).  Python truthiness of `download_url` makes
the empty string unusable as well. -/

/-- Python truthiness of the `download_url` value. -/
def usableUrl : Option String → Bool
  | none => false
  | some s => !s.isEmpty

/-- One guarded tier attempt: `try: ... except Exception: pass` maps a
transport error to no URL. -/
def tryTier (resolve : ℕ → Except Unit (Option String)) (br : ℕ) :
    Option String :=
  match resolve br with
  | .error _ => none
  | .ok u => u

/-- Extension rule of `download_lossless_music`: the suffix extracted from
the decoded URL path is replaced by `.mp3` when it is empty or longer than 5
characters (the dot included). -/
def extOrDefault (ext : String) : String :=
  if ext.isEmpty || 5 < ext.length then ".mp3" else ext

/-- Cascade and naming core of `download_lossless_music`: try tier `999`,
then `740` when no usable URL yet, then `320`; on failure of all three,
report `none`; on success, return the chosen URL and the destination file
name, whose stem is the stem of the original tracked file and whose
extension comes from `urlExt` (abstracting
`Path(unquote(urlparse(url).path)).suffix.lower()`). -/
def download_lossless_music (resolve : ℕ → Except Unit (Option String))
    (urlExt : String → String) (original_stem : String) :
    Option (String × String) :=
  let u999 := tryTier resolve 999
  let u740 := if usableUrl u999 then u999 else tryTier resolve 740
  let u320 := if usableUrl u740 then u740 else tryTier resolve 320
  match u320 with
  | none => none
  | some download_url =>
      if download_url.isEmpty then none
      else
        some (download_url,
          original_stem ++ extOrDefault (urlExt download_url))

/-! ### Parameter validation in the API client (`gd_api.py`)

`get_song_url` and `get_album_art` validate `source` and `br` / `size`
before `session.get` is reached.  The functions are modelled up to the point
where the network request would be issued: an `.ok` result carries the query
parameters of the request that is then sent, an `.error` result is the
`ValueError` raised beforehand (so no request is sent). -/

/-- Validation errors raised by the client before any network I/O. -/
inductive ValidationError where
  | unsupportedSource (source : String)
  | unsupportedQuality (br : ℤ)
  | unsupportedSize (size : ℤ)
deriving DecidableEq, Repr

/-- Supported sources list of `GDAPIClient.__init__`. -/
def supported_sources : List String :=
  ["netease", "tencent", "tidal", "spotify", "ytmusic",
   "qobuz", "joox", "deezer", "migu", "kugou", "kuwo",
   "ximalaya", "apple"]

/-- Query parameters of the outgoing request (the dictionary passed to
`session.get`). -/
structure RequestParams where
  types : String
  source : String
  id : String
  num : ℤ
deriving DecidableEq, Repr

/-- Validation prefix of `GDAPIClient.get_song_url` (same checks in the
async clients): unsupported source, then `br` outside
`[128, 192, 320, 740, 999]`, each raising before the request is built. -/
def get_song_url (track_id : String) (source : String) (br : ℤ) :
    Except ValidationError RequestParams :=
  if source ∉ supported_sources then
    .error (.unsupportedSource source)
  else if br ∉ ([128, 192, 320, 740, 999] : List ℤ) then
    .error (.unsupportedQuality br)
  else
    .ok ⟨"url", source, track_id, br⟩

/-- Validation prefix of `GDAPIClient.get_album_art`: unsupported source,
then `size` outside `[300, 500]`. -/
def get_album_art (pic_id : String) (source : String) (size : ℤ) :
    Except ValidationError RequestParams :=
  if source ∉ supported_sources then
    .error (.unsupportedSource source)
  else if size ∉ ([300, 500] : List ℤ) then
    .error (.unsupportedSize size)
  else
    .ok ⟨"pic", source, pic_id, size⟩

/-- Default-quality call `get_song_url(track_id, source)`: the Python
signature defaults `br` to `99`. -/
def get_song_url_default (track_id : String) (source : String) :
    Except ValidationError RequestParams :=
  get_song_url track_id source 99

/-! ### Retry loop (`_make_request` / `_make_request_with_rate_limit`)

The `for attempt in range(self.retries + 1)` loop shared by
`RateLimitedGDAPIClient._make_request` (`music_upgrade.py` lines 81-101),
`AsyncRateLimitedGDAPIClient._make_request` (`music_upgrader_core_async.py`
lines 74-101) and `_make_request_with_rate_limit` (`async_gd_api.py` lines
434-458): each attempt either returns, or is caught and — when attempts
remain — retried after sleeping `2 ** attempt` time units; the final
attempt re-raises its error.  The attempt bodies are abstracted as an oracle
`attempt : ℕ → Except ε α` (attempt number, 0-based).  The function returns
the outcome, the number of attempts made, and the list of backoff delays
slept, in order. -/

def retryLoop {ε α : Type} (attempt : ℕ → Except ε α) :
    ℕ → ℕ → Except ε α × ℕ × List ℚ
  | k, 0 =>
      -- final attempt: `attempt == self.retries`, so an error is re-raised
      (attempt k, 1, [])
  | k, remaining + 1 =>
      match attempt k with
      | .ok a => (.ok a, 1, [])
      | .error _ =>
          let r := retryLoop attempt (k + 1) remaining
          (r.1, r.2.1 + 1, ((2 : ℚ) ^ k) :: r.2.2)

/-- The whole retry loop, started at attempt 0 with `retries` attempts
remaining after the first. -/
def make_request {ε α : Type} (retries : ℕ) (attempt : ℕ → Except ε α) :
    Except ε α × ℕ × List ℚ :=
  retryLoop attempt 0 retries

/-! ### One item of the batch match pass (`match_files_async`)

From `downloader.py` lines 195-312 (the single-item re-match
`_rematch_single_file_async` in `context_menu.py` lines 209-321 is
identical): per item, if the existing match result already carries a usable
id the search is skipped and the match result kept; otherwise the search
runs, its first result (or a placeholder) becomes the new match, and a
failed new match never replaces a successful existing one.  The remote
search (including the raised-exception case) is the `outcome` argument. -/

/-- Result of one match step: the new `matched_songs[index]`,
`original_matched_songs[index]` and status. -/
structure MatchStepResult where
  matched : Option Song
  original : Option Song
  status : MusicStatus
deriving DecidableEq, Repr

def matchStep (existing original : Option Song)
    (outcome : Except Unit (List Song)) : MatchStepResult :=
  if usableMatch existing then
    -- skip branch: existing successful match kept, no remote call made
    ⟨existing, original, AUTO_MATCHED⟩
  else
    match outcome with
    | .error _ =>
        -- except branch of the source
        if usableMatch existing then ⟨existing, original, AUTO_MATCHED⟩
        else ⟨some matchFailPlaceholder, some matchFailPlaceholder, MATCH_FAIL⟩
    | .ok search_results =>
        let matched_song :=
          match search_results with
          | [] => notFoundPlaceholder
          | r :: _ => r
        if usableMatch (some matched_song) then
          ⟨some matched_song, some matched_song, AUTO_MATCHED⟩
        else if usableMatch existing then
          ⟨existing, original, AUTO_MATCHED⟩
        else
          ⟨some matched_song, some matched_song, MATCH_FAIL⟩

/-! ### Rate limiter (`_check_rate_limit` and the request record)

From `music_upgrade.py` lines 51-101 / `music_upgrader_core_async.py` lines
44-101.  Timestamps are rationals; the deque is a list ordered oldest
first.  Eviction drops the stale prefix; when the deque holds
`max_requests` entries, the caller sleeps until the oldest entry leaves the
window and evicts again.

One `_make_request` call runs `_check_rate_limit` once and then enters the
retry loop, which appends the current time to the deque at the top of
EVERY attempt: a call with `failures` transient failures makes
`min (failures + 1) (retries + 1)` attempts, sleeping `2 ^ k` after failed
attempt `k`, so — idealizing attempt bodies as instantaneous, backoff
sleeps aside — attempt `k` is recorded at `e + (2 ^ k - 1)` where `e` is
the time the check returned, and the call returns at its final attempt's
time.  `makeRequestStep` embeds one such call; `admitRecord` / `admitStep`
are its specialization to a call whose first attempt succeeds (exactly one
timestamp recorded after the check; `makeRequestStep_no_retry` below proves
the collapse).  A run executes a sequence of calls, each arriving a
nonnegative delay after the previous call returned, and accumulates the
full history of recorded timestamps. -/

/-- The eviction loop
`while requests and requests[0] <= now - time_window: popleft()`. -/
def evictStale (time_window now : ℚ) (requests : List ℚ) : List ℚ :=
  requests.dropWhile (fun t => t ≤ now - time_window)

/-- Method `_check_rate_limit`: evict, then when the deque is full, sleep
`time_window - (now - requests[0])` (when positive) and evict again.
Returns the new deque and the time when the method returns.  (With
`max_requests = 0` and an empty deque, the Python code would raise an
`IndexError` reading `requests[0]`; that case is unreachable for
`max_requests ≥ 1` and is mapped to an immediate return.) -/
def check_rate_limit (max_requests : ℕ) (time_window : ℚ)
    (requests : List ℚ) (now : ℚ) : List ℚ × ℚ :=
  let requests1 := evictStale time_window now requests
  if max_requests ≤ requests1.length then
    match requests1 with
    | [] => (requests1, now)
    | t0 :: _ =>
        let sleep_time := time_window - (now - t0)
        if 0 < sleep_time then
          let now2 := now + sleep_time
          (evictStale time_window now2 requests1, now2)
        else (requests1, now)
  else (requests1, now)

/-- The rate-limit check followed by recording a single request timestamp:
the behavior of one `_make_request` call whose first attempt succeeds. -/
def admitRecord (max_requests : ℕ) (time_window : ℚ) (requests : List ℚ)
    (now : ℚ) : List ℚ × ℚ :=
  let r := check_rate_limit max_requests time_window requests now
  (r.1 ++ [r.2], r.2)

/-- State of a run of calls: the live deque, the time at which the last
call returned, and the (ghost) history of every recorded timestamp. -/
structure RateLimiterRun where
  deque : List ℚ
  lastTime : ℚ
  recorded : List ℚ
deriving DecidableEq, Repr

/-- One no-retry step of the run: the next call arrives `delay ≥ 0` after
the previous call returned and succeeds on its first attempt. -/
def admitStep (max_requests : ℕ) (time_window : ℚ) (s : RateLimiterRun)
    (delay : ℚ) : RateLimiterRun :=
  let now := s.lastTime + delay
  let r := admitRecord max_requests time_window s.deque now
  ⟨r.1, r.2, s.recorded ++ [r.2]⟩

/-- Timestamps recorded by the retry loop within one call whose rate-limit
check returned at time `e`: attempt `k` is appended after the cumulative
backoff `2 ^ 0 + ... + 2 ^ (k - 1) = 2 ^ k - 1`. -/
def attemptTimes (e : ℚ) (attempts : ℕ) : List ℚ :=
  (List.range attempts).map (fun k => e + ((2 : ℚ) ^ k - 1))

/-- One full `_make_request` call: the rate-limit check once, then one
recorded timestamp per attempt of the retry loop.  `call` is the pair of
the arrival delay after the previous call returned and the number of
transient failures (the loop stops after `retries + 1` attempts).  The
call returns at the time of its final attempt. -/
def makeRequestStep (max_requests : ℕ) (time_window : ℚ) (retries : ℕ)
    (s : RateLimiterRun) (call : ℚ × ℕ) : RateLimiterRun :=
  let now := s.lastTime + call.1
  let r := check_rate_limit max_requests time_window s.deque now
  let attempts := min (call.2 + 1) (retries + 1)
  ⟨r.1 ++ attemptTimes r.2 attempts,
   r.2 + ((2 : ℚ) ^ (attempts - 1) - 1),
   s.recorded ++ attemptTimes r.2 attempts⟩

/-- A full run of `_make_request` calls from the empty deque at time 0. -/
def makeRequestRun (max_requests : ℕ) (time_window : ℚ) (retries : ℕ)
    (calls : List (ℚ × ℕ)) : RateLimiterRun :=
  calls.foldl (makeRequestStep max_requests time_window retries) ⟨[], 0, []⟩

/-- Number of recorded timestamps lying in the trailing window `(t -
time_window, t]`. -/
def countWindow (time_window t : ℚ) (stamps : List ℚ) : ℕ :=
  (stamps.filter (fun x => decide (t - time_window < x ∧ x ≤ t))).length

/-! ### Concrete states and oracles used by the claim witnesses -/

/-- Reachable state refuting C5 as stated: the stored original match is the
auto-match result `SongA`, after which the user manually matched `SongB`
(`set_manual_match_result` updates `matched_songs` only). -/
def preIgnoreState : AppState :=
  setManualMatchResult
    (AppState.mk ⟨[AUTO_MATCHED], [none]⟩
      [some ⟨"SongA", ["Artist1"], some "1"⟩]
      [some ⟨"SongA", ["Artist1"], some "1"⟩])
    0 ⟨"SongB", ["Artist2"], some "2"⟩

/-- Resolution oracle of the specification scenario: tiers 999 and 740
fail, tier 320 resolves to a URL ending in a FLAC path. -/
def onlyTier320 : ℕ → Except Unit (Option String) := fun br =>
  if br = 320 then .ok (some "http://host/track.flac") else .error ()

/-! ### Rate-limited client wrappers around validation and retry

Two wrappers route `get_song_url` / `get_album_art` calls through the retry
loop in structurally different ways.

`RateLimitedGDAPIClient` (`music_upgrade.py` lines 103-125) passes the whole
bound method to `_make_request`, e.g.
`self._make_request(super().get_song_url, track_id, source, br)`; every
attempt of the retry loop re-runs the method from its validation prefix, and
the generic `except Exception` handler catches and retries a `ValueError`
like any other failure.

`AsyncRateLimitedGDAPIClient` (`async_gd_api.py` lines 489-515) validates
first and only then enters `_make_request_with_rate_limit`, so a
`ValueError` propagates without the retry loop ever running. -/

/-- Synchronous rate-limited `get_song_url`: the retried attempt body is the
whole validating call.  (As validation never reaches `.ok`, no network
request is issued by any attempt.) -/
def sync_rate_limited_get_song_url (retries : ℕ) (track_id source : String)
    (br : ℤ) : Except ValidationError RequestParams × ℕ × List ℚ :=
  make_request retries (fun _ => get_song_url track_id source br)

/-- Synchronous rate-limited `get_album_art`, same wrapping. -/
def sync_rate_limited_get_album_art (retries : ℕ) (pic_id source : String)
    (size : ℤ) : Except ValidationError RequestParams × ℕ × List ℚ :=
  make_request retries (fun _ => get_album_art pic_id source size)

/-- Asynchronous rate-limited `get_song_url`: validation first, then the
retry loop around the network call only.  Returns the outcome and the
number of network attempts made. -/
def async_rate_limited_get_song_url (α : Type) (retries : ℕ)
    (track_id source : String) (br : ℤ)
    (network : RequestParams → ℕ → Except Unit α) :
    Except (ValidationError ⊕ Unit) α × ℕ :=
  match get_song_url track_id source br with
  | .error e => (.error (Sum.inl e), 0)
  | .ok params =>
      let r := make_request retries (network params)
      (match r.1 with
       | .ok a => .ok a
       | .error u => .error (Sum.inr u), r.2.1)

/-- Asynchronous rate-limited `get_album_art`, same wrapping. -/
def async_rate_limited_get_album_art (α : Type) (retries : ℕ)
    (pic_id source : String) (size : ℤ)
    (network : RequestParams → ℕ → Except Unit α) :
    Except (ValidationError ⊕ Unit) α × ℕ :=
  match get_album_art pic_id source size with
  | .error e => (.error (Sum.inl e), 0)
  | .ok params =>
      let r := make_request retries (network params)
      (match r.1 with
       | .ok a => .ok a
       | .error u => .error (Sum.inr u), r.2.1)

/-! ## Helper lemmas -/

/-- Setting a list entry to the value it already holds is the identity. -/
theorem set_self_of_getElem {α : Type} {l : List α} {i : ℕ} {a : α}
    (h : l[i]? = some a) : l.set i a = l := by
  induction l generalizing i with
  | nil => simp at h
  | cons b l ih =>
      cases i with
      | zero =>
          simp only [List.getElem?_cons_zero, Option.some.injEq] at h
          simp [h]
      | succ n =>
          simp only [List.getElem?_cons_succ] at h
          simp [List.set_cons_succ, ih h]

/-! ## Claim theorems -/

/-- C2: for every item whose current status is `AUTO_DOWNLOAD_COMPLETE` or
`MANUAL_DOWNLOAD_COMPLETE`, the ignore action is ineligible (`can_ignore` is
false, so the menu does not offer it) and the effective interactive ignore
action is a no-op: the application state, in particular the status, is
unchanged, and no error is raised. -/
theorem ignore_rejected_on_downloaded (s : AppState) (index : ℕ)
    (st : MusicStatus) (hst : s.sm.status_list[index]? = some st)
    (hdl : st = AUTO_DOWNLOAD_COMPLETE ∨ st = MANUAL_DOWNLOAD_COMPLETE) :
    s.sm.can_ignore index = false ∧
    ContextMenuHandler.contextMenuIgnore s index = s := by
  have hci : s.sm.can_ignore index = false := by
    unfold MusicStateManager.can_ignore
    rw [hst]
    rcases hdl with h | h <;> subst h <;> rfl
  refine ⟨hci, ?_⟩
  unfold ContextMenuHandler.contextMenuIgnore
    ContextMenuHandler.contextMenuIgnoreOffered
  rw [hci]
  simp

/-- Witness for C2 at a concrete state: one item, already auto-downloaded. -/
theorem ignore_rejected_on_downloaded_witness :
    (AppState.mk ⟨[AUTO_DOWNLOAD_COMPLETE], [none]⟩
        [some ⟨"A", ["B"], some "1"⟩] [some ⟨"A", ["B"], some "1"⟩]).sm.can_ignore 0
      = false ∧
    ContextMenuHandler.contextMenuIgnore
        (AppState.mk ⟨[AUTO_DOWNLOAD_COMPLETE], [none]⟩
          [some ⟨"A", ["B"], some "1"⟩] [some ⟨"A", ["B"], some "1"⟩]) 0
      = AppState.mk ⟨[AUTO_DOWNLOAD_COMPLETE], [none]⟩
          [some ⟨"A", ["B"], some "1"⟩] [some ⟨"A", ["B"], some "1"⟩] :=
  ignore_rejected_on_downloaded _ 0 AUTO_DOWNLOAD_COMPLETE (by rfl) (Or.inl rfl)

/-- C8: at every valid item index, `can_download` is true exactly when the
status is `AUTO_MATCHED` or `MANUAL_MATCHED`; for an `IGNORED` item it is
false whatever the backed-up status is (the predicate never reads the
backup). -/
theorem can_download_characterization (m : MusicStateManager) (index : ℕ)
    (st : MusicStatus) (hst : m.status_list[index]? = some st) :
    (m.can_download index = true ↔ st = AUTO_MATCHED ∨ st = MANUAL_MATCHED) ∧
    (st = IGNORED → m.can_download index = false) := by
  unfold MusicStateManager.can_download
  rw [hst]
  cases st <;> simp

/-- Witness for C8: an `IGNORED` item whose backup is `AUTO_MATCHED` is not
downloadable; an `AUTO_MATCHED` item is. -/
theorem can_download_characterization_witness :
    ((MusicStateManager.mk [IGNORED] [some AUTO_MATCHED]).can_download 0 = false) ∧
    ((MusicStateManager.mk [AUTO_MATCHED] [none]).can_download 0 = true) := by
  constructor
  · exact (can_download_characterization ⟨[IGNORED], [some AUTO_MATCHED]⟩ 0
      IGNORED (by rfl)).2 rfl
  · exact (can_download_characterization ⟨[AUTO_MATCHED], [none]⟩ 0
      AUTO_MATCHED (by rfl)).1.mpr (Or.inl rfl)

/-- C10: the defaulted call `get_song_url(track_id, source)` uses `br = 99`,
which is outside the accepted set, so for every source it fails validation
before any network request is issued; more generally the request is issued
exactly when the source is supported and the tier is in the accepted set. -/
theorem get_song_url_default_always_fails :
    (∀ track_id source, ∃ e,
        get_song_url_default track_id source = .error e) ∧
    (∀ track_id source br, (∃ p, get_song_url track_id source br = .ok p) ↔
        source ∈ supported_sources ∧ br ∈ ([128, 192, 320, 740, 999] : List ℤ)) := by
  constructor
  · intro track_id source
    unfold get_song_url_default get_song_url
    by_cases hs : source ∈ supported_sources
    · exact ⟨.unsupportedQuality 99, by simp [hs]⟩
    · exact ⟨.unsupportedSource source, by simp [hs]⟩
  · intro track_id source br
    unfold get_song_url
    by_cases hs : source ∈ supported_sources <;>
      by_cases hb : br ∈ ([128, 192, 320, 740, 999] : List ℤ) <;>
      simp [hs, hb]

/-- C6: a match pass step (batch `match_files_async` or single-item
re-match) never overwrites an existing successful match result: when the
existing match carries a usable id, both the current and the original match
result are left unchanged, whatever the search outcome (success, empty or
raised) is. -/
theorem match_step_preserves_success (existing original : Option Song)
    (outcome : Except Unit (List Song))
    (h : usableMatch existing = true) :
    (matchStep existing original outcome).matched = existing ∧
    (matchStep existing original outcome).original = original := by
  unfold matchStep
  rw [h]
  simp

/-- Witness for C6: an existing successful match survives a failed search
outcome. -/
theorem match_step_preserves_success_witness :
    usableMatch (some ⟨"SongA", ["Artist1"], some "1"⟩) = true ∧
    (matchStep (some ⟨"SongA", ["Artist1"], some "1"⟩)
        (some ⟨"SongA", ["Artist1"], some "1"⟩) (.error ())).matched
      = some ⟨"SongA", ["Artist1"], some "1"⟩ :=
  ⟨by decide,
   (match_step_preserves_success (some ⟨"SongA", ["Artist1"], some "1"⟩)
      (some ⟨"SongA", ["Artist1"], some "1"⟩) (.error ()) (by decide)).1⟩

/-- Counterexample to C5: from `preIgnoreState`, `Ignore` then `Unignore`
(no remote call occurs: the unignore returns on the stored-original branch)
restores the prior status but not the prior match result — the match result
reverts to the original snapshot `SongA`, not the manually selected
`SongB`. -/
theorem ignore_unignore_not_roundtrip :
    (ContextMenuHandler.unignore_item
        (ContextMenuHandler.ignore_item preIgnoreState 0) 0).2 = false ∧
    (ContextMenuHandler.unignore_item
        (ContextMenuHandler.ignore_item preIgnoreState 0) 0).1.sm.status_list
      = preIgnoreState.sm.status_list ∧
    (ContextMenuHandler.unignore_item
        (ContextMenuHandler.ignore_item preIgnoreState 0) 0).1.matched_songs
      ≠ preIgnoreState.matched_songs := by
  refine ⟨by decide, by decide, by decide⟩

/-- C5 as amended: `Ignore` then `Unignore` always restores the prior
status and consumes the backup; the prior match result is restored exactly
when it coincides with the stored original match snapshot (as after an
auto match), since `Unignore` restores from the snapshot. -/
theorem ignore_unignore_roundtrip (s : AppState) (index : ℕ) (r : Song)
    (hlen1 : index < s.sm.status_list.length)
    (hlen2 : index < s.sm.ignored_status_backup.length)
    (hmatched : s.matched_songs[index]? = some (some r))
    (horig : s.original_matched_songs[index]? = some (some r)) :
    (ContextMenuHandler.unignore_item
        (ContextMenuHandler.ignore_item s index) index).2 = false ∧
    (ContextMenuHandler.unignore_item
        (ContextMenuHandler.ignore_item s index) index).1.sm.status_list
      = s.sm.status_list ∧
    (ContextMenuHandler.unignore_item
        (ContextMenuHandler.ignore_item s index) index).1.matched_songs
      = s.matched_songs ∧
    (ContextMenuHandler.unignore_item
        (ContextMenuHandler.ignore_item s index) index).1.sm.ignored_status_backup[index]?
      = some none := by
  obtain ⟨st, hst⟩ : ∃ st, s.sm.status_list[index]? = some st :=
    ⟨s.sm.status_list[index], (List.getElem?_eq_getElem hlen1)⟩
  have hbackup :
      (s.sm.ignored_status_backup.set index (some st))[index]? = some (some st) := by
    rw [List.getElem?_set_self (by simpa using hlen2)]
  unfold ContextMenuHandler.ignore_item ContextMenuHandler.unignore_item
    MusicStateManager.ignore_item MusicStateManager.unignore_item
  simp only [hst, List.length_set, hlen1, if_true, if_pos, hbackup, horig]
  refine ⟨trivial, ?_, ?_, ?_⟩
  · rw [List.set_set, set_self_of_getElem hst]
  · rw [List.set_set, set_self_of_getElem hmatched]
  · rw [List.set_set, List.getElem?_set_self (by simpa using hlen2)]

/-- Witness for the amended C5 at a concrete state: one auto-matched item
whose current and original match results agree. -/
theorem ignore_unignore_roundtrip_witness :
    (ContextMenuHandler.unignore_item
        (ContextMenuHandler.ignore_item
          (AppState.mk ⟨[AUTO_MATCHED], [none]⟩
            [some ⟨"SongA", ["Artist1"], some "1"⟩]
            [some ⟨"SongA", ["Artist1"], some "1"⟩]) 0) 0).2 = false ∧
    (ContextMenuHandler.unignore_item
        (ContextMenuHandler.ignore_item
          (AppState.mk ⟨[AUTO_MATCHED], [none]⟩
            [some ⟨"SongA", ["Artist1"], some "1"⟩]
            [some ⟨"SongA", ["Artist1"], some "1"⟩]) 0) 0).1.sm.status_list
      = [AUTO_MATCHED] ∧
    (ContextMenuHandler.unignore_item
        (ContextMenuHandler.ignore_item
          (AppState.mk ⟨[AUTO_MATCHED], [none]⟩
            [some ⟨"SongA", ["Artist1"], some "1"⟩]
            [some ⟨"SongA", ["Artist1"], some "1"⟩]) 0) 0).1.matched_songs
      = [some ⟨"SongA", ["Artist1"], some "1"⟩] :=
  ⟨(ignore_unignore_roundtrip
      (AppState.mk ⟨[AUTO_MATCHED], [none]⟩
        [some ⟨"SongA", ["Artist1"], some "1"⟩]
        [some ⟨"SongA", ["Artist1"], some "1"⟩]) 0 ⟨"SongA", ["Artist1"], some "1"⟩
      (by decide) (by decide) (by rfl) (by rfl)).1,
   (ignore_unignore_roundtrip
      (AppState.mk ⟨[AUTO_MATCHED], [none]⟩
        [some ⟨"SongA", ["Artist1"], some "1"⟩]
        [some ⟨"SongA", ["Artist1"], some "1"⟩]) 0 ⟨"SongA", ["Artist1"], some "1"⟩
      (by decide) (by decide) (by rfl) (by rfl)).2.1,
   (ignore_unignore_roundtrip
      (AppState.mk ⟨[AUTO_MATCHED], [none]⟩
        [some ⟨"SongA", ["Artist1"], some "1"⟩]
        [some ⟨"SongA", ["Artist1"], some "1"⟩]) 0 ⟨"SongA", ["Artist1"], some "1"⟩
      (by decide) (by decide) (by rfl) (by rfl)).2.2.1⟩

/-- Specification of the running-maximum loop of `find_best_match`, started
at a current best `b` with score `score b`: it returns some candidate `c`
at least as good as `b` and as every list element, and `c` is either `b`
itself or a strict improvement that no earlier element matches. -/
theorem findBestLoop_spec {α : Type} (score : α → ℚ) :
    ∀ (l : List α) (b : α),
      ∃ c, findBestLoop score l (some b) (score b) = some c ∧
        score b ≤ score c ∧ (∀ x ∈ l, score x ≤ score c) ∧
        (c = b ∨ ∃ pre post, l = pre ++ c :: post ∧ score b < score c ∧
          ∀ x ∈ pre, score x < score c) := by
  intro l
  induction l with
  | nil =>
      intro b
      exact ⟨b, rfl, le_refl _, by simp, Or.inl rfl⟩
  | cons r rest ih =>
      intro b
      by_cases h : score b < score r
      · obtain ⟨c, hc, hle, hall, hdisj⟩ := ih r
        refine ⟨c, ?_, h.le.trans hle, ?_, ?_⟩
        · rw [findBestLoop, if_pos h]; exact hc
        · intro x hx
          rcases List.mem_cons.mp hx with rfl | hx
          · exact hle
          · exact hall x hx
        · rcases hdisj with rfl | ⟨pre, post, hsplit, hlt, hpre⟩
          · exact Or.inr ⟨[], rest, rfl, h, by simp⟩
          · refine Or.inr ⟨r :: pre, post, by rw [hsplit]; rfl, h.trans hlt, ?_⟩
            intro x hx
            rcases List.mem_cons.mp hx with rfl | hx
            · exact hlt
            · exact hpre x hx
      · obtain ⟨c, hc, hle, hall, hdisj⟩ := ih b
        refine ⟨c, ?_, hle, ?_, ?_⟩
        · rw [findBestLoop, if_neg h]; exact hc
        · intro x hx
          rcases List.mem_cons.mp hx with rfl | hx
          · exact (not_lt.mp h).trans hle
          · exact hall x hx
        · rcases hdisj with rfl | ⟨pre, post, hsplit, hlt, hpre⟩
          · exact Or.inl rfl
          · refine Or.inr ⟨r :: pre, post, by rw [hsplit]; rfl, hlt, ?_⟩
            intro x hx
            rcases List.mem_cons.mp hx with rfl | hx
            · exact (not_lt.mp h).trans_lt hlt
            · exact hpre x hx

/-- C3: `find_best_match` returns `none` on the empty candidate list; on a
non-empty list of candidates with nonnegative similarity scores (every
`SequenceMatcher`-based total score is nonnegative) it returns a candidate
whose score is greater than or equal to every other score, and every
earlier-indexed candidate has a strictly smaller score, so exact ties keep
the first-seen candidate. -/
theorem find_best_match_spec {α : Type} (score : α → ℚ) (l : List α) :
    find_best_match score ([] : List α) = none ∧
    (l ≠ [] → (∀ x ∈ l, 0 ≤ score x) →
      ∃ c pre post, find_best_match score l = some c ∧ l = pre ++ c :: post ∧
        (∀ x ∈ l, score x ≤ score c) ∧ (∀ x ∈ pre, score x < score c)) := by
  refine ⟨rfl, ?_⟩
  intro hne hpos
  match l, hne, hpos with
  | r :: rest, _, hpos =>
    have h0 : (-1 : ℚ) < score r :=
      lt_of_lt_of_le (by norm_num) (hpos r (by simp))
    have hstart : find_best_match score (r :: rest)
        = findBestLoop score rest (some r) (score r) := by
      show findBestLoop score (r :: rest) none (-1) = _
      rw [findBestLoop, if_pos h0]
    obtain ⟨c, hc, hle, hall, hdisj⟩ := findBestLoop_spec score rest r
    rcases hdisj with rfl | ⟨pre, post, hsplit, hlt, hpre⟩
    · refine ⟨c, [], rest, by rw [hstart, hc], rfl, ?_, by simp⟩
      intro x hx
      rcases List.mem_cons.mp hx with rfl | hx
      · exact le_refl _
      · exact hall x hx
    · refine ⟨c, r :: pre, post, by rw [hstart, hc], by rw [hsplit]; rfl, ?_, ?_⟩
      · intro x hx
        rcases List.mem_cons.mp hx with rfl | hx
        · exact hle
        · exact hall x hx
      · intro x hx
        rcases List.mem_cons.mp hx with rfl | hx
        · exact hlt
        · exact hpre x hx

/-- Witness for C3: on scores `[3, 7, 7]` the loop selects the
earlier-indexed of the two tied maximal candidates. -/
theorem find_best_match_spec_witness :
    ([3, 7, 7] : List ℕ) ≠ [] ∧
    (∃ c pre post,
      find_best_match (fun n : ℕ => (n : ℚ)) [3, 7, 7] = some c ∧
      ([3, 7, 7] : List ℕ) = pre ++ c :: post ∧
      (∀ x ∈ ([3, 7, 7] : List ℕ), (x : ℚ) ≤ (c : ℚ)) ∧
      (∀ x ∈ pre, (x : ℚ) < (c : ℚ))) :=
  ⟨by decide,
   (find_best_match_spec (fun n : ℕ => (n : ℚ)) [3, 7, 7]).2 (by decide)
     (fun x _ => Nat.cast_nonneg x)⟩

/-- A usable URL value is some nonempty string. -/
theorem usableUrl_true {v : Option String} (h : usableUrl v = true) :
    ∃ u, v = some u ∧ u.isEmpty = false := by
  match v with
  | none => exact absurd h (by simp [usableUrl])
  | some u =>
      refine ⟨u, rfl, ?_⟩
      simpa [usableUrl] using h

/-- An unusable URL value is either absent or the empty string. -/
theorem usableUrl_false {v : Option String} (h : usableUrl v = false) :
    v = none ∨ ∃ u, v = some u ∧ u.isEmpty = true := by
  match v with
  | none => exact Or.inl rfl
  | some u =>
      refine Or.inr ⟨u, rfl, ?_⟩
      simpa [usableUrl] using h

/-- C4: the downloader resolves tier 999 first, then 740, then 320,
stopping at the first tier yielding a usable URL (a tier whose resolution
raised counts as unusable and the next tier is tried); the result is `none`
exactly when no tier yields a usable URL; and every successful download is
written to a file whose stem is the original tracked file's stem, with the
extension from the decoded URL path, defaulted to `.mp3` when absent or
longer than 5 characters including the dot. -/
theorem download_cascade_spec (resolve : ℕ → Except Unit (Option String))
    (urlExt : String → String) (original_stem : String) :
    (∀ u, tryTier resolve 999 = some u → u.isEmpty = false →
        download_lossless_music resolve urlExt original_stem
          = some (u, original_stem ++ extOrDefault (urlExt u))) ∧
    (∀ u, usableUrl (tryTier resolve 999) = false →
        tryTier resolve 740 = some u → u.isEmpty = false →
        download_lossless_music resolve urlExt original_stem
          = some (u, original_stem ++ extOrDefault (urlExt u))) ∧
    (∀ u, usableUrl (tryTier resolve 999) = false →
        usableUrl (tryTier resolve 740) = false →
        tryTier resolve 320 = some u → u.isEmpty = false →
        download_lossless_music resolve urlExt original_stem
          = some (u, original_stem ++ extOrDefault (urlExt u))) ∧
    (download_lossless_music resolve urlExt original_stem = none ↔
        usableUrl (tryTier resolve 999) = false ∧
        usableUrl (tryTier resolve 740) = false ∧
        usableUrl (tryTier resolve 320) = false) ∧
    (∀ u fn, download_lossless_music resolve urlExt original_stem
          = some (u, fn) →
        fn = original_stem ++ extOrDefault (urlExt u)) := by
  have h999 : ∀ u, tryTier resolve 999 = some u → u.isEmpty = false →
      download_lossless_music resolve urlExt original_stem
        = some (u, original_stem ++ extOrDefault (urlExt u)) := by
    intro u hu hue
    simp [download_lossless_music, hu, usableUrl, hue]
  have h740 : ∀ u, usableUrl (tryTier resolve 999) = false →
      tryTier resolve 740 = some u → u.isEmpty = false →
      download_lossless_music resolve urlExt original_stem
        = some (u, original_stem ++ extOrDefault (urlExt u)) := by
    intro u hA hu hue
    rcases usableUrl_false hA with h9 | ⟨v, h9, h9e⟩
    · simp [download_lossless_music, h9, hu, usableUrl, hue]
    · simp [download_lossless_music, h9, h9e, hu, usableUrl, hue]
  have h320 : ∀ u, usableUrl (tryTier resolve 999) = false →
      usableUrl (tryTier resolve 740) = false →
      tryTier resolve 320 = some u → u.isEmpty = false →
      download_lossless_music resolve urlExt original_stem
        = some (u, original_stem ++ extOrDefault (urlExt u)) := by
    intro u hA hB hu hue
    rcases usableUrl_false hA with h9 | ⟨v, h9, h9e⟩ <;>
      rcases usableUrl_false hB with h7 | ⟨w, h7, h7e⟩
    · simp [download_lossless_music, h9, h7, hu, usableUrl, hue]
    · simp [download_lossless_music, h9, h7, h7e, hu, usableUrl, hue]
    · simp [download_lossless_music, h9, h9e, h7, hu, usableUrl, hue]
    · simp [download_lossless_music, h9, h9e, h7, h7e, hu, usableUrl, hue]
  have hnone : usableUrl (tryTier resolve 999) = false →
      usableUrl (tryTier resolve 740) = false →
      usableUrl (tryTier resolve 320) = false →
      download_lossless_music resolve urlExt original_stem = none := by
    intro hA hB hC
    rcases usableUrl_false hA with h9 | ⟨v, h9, h9e⟩ <;>
      rcases usableUrl_false hB with h7 | ⟨w, h7, h7e⟩ <;>
      rcases usableUrl_false hC with h3 | ⟨x, h3, h3e⟩
    · simp [download_lossless_music, h9, h7, h3, usableUrl]
    · simp [download_lossless_music, h9, h7, h3, h3e, usableUrl]
    · simp [download_lossless_music, h9, h7, h7e, h3, usableUrl]
    · simp [download_lossless_music, h9, h7, h7e, h3, h3e, usableUrl]
    · simp [download_lossless_music, h9, h9e, h7, h3, usableUrl]
    · simp [download_lossless_music, h9, h9e, h7, h3, h3e, usableUrl]
    · simp [download_lossless_music, h9, h9e, h7, h7e, h3, usableUrl]
    · simp [download_lossless_music, h9, h9e, h7, h7e, h3, h3e, usableUrl]
  refine ⟨h999, h740, h320, ?_, ?_⟩
  · constructor
    · intro hdl
      cases hA : usableUrl (tryTier resolve 999) with
      | true =>
          obtain ⟨u, hu, hue⟩ := usableUrl_true hA
          rw [h999 u hu hue] at hdl
          cases hdl
      | false =>
          cases hB : usableUrl (tryTier resolve 740) with
          | true =>
              obtain ⟨u, hu, hue⟩ := usableUrl_true hB
              rw [h740 u hA hu hue] at hdl
              cases hdl
          | false =>
              cases hC : usableUrl (tryTier resolve 320) with
              | true =>
                  obtain ⟨u, hu, hue⟩ := usableUrl_true hC
                  rw [h320 u hA hB hu hue] at hdl
                  cases hdl
              | false => exact ⟨rfl, rfl, rfl⟩
    · rintro ⟨hA, hB, hC⟩
      exact hnone hA hB hC
  · intro u fn h
    cases hA : usableUrl (tryTier resolve 999) with
    | true =>
        obtain ⟨v, hv, hve⟩ := usableUrl_true hA
        rw [h999 v hv hve] at h
        obtain ⟨rfl, rfl⟩ : v = u ∧ original_stem ++ extOrDefault (urlExt v) = fn := by
          simpa using h
        rfl
    | false =>
        cases hB : usableUrl (tryTier resolve 740) with
        | true =>
            obtain ⟨v, hv, hve⟩ := usableUrl_true hB
            rw [h740 v hA hv hve] at h
            obtain ⟨rfl, rfl⟩ : v = u ∧ original_stem ++ extOrDefault (urlExt v) = fn := by
              simpa using h
            rfl
        | false =>
            cases hC : usableUrl (tryTier resolve 320) with
            | true =>
                obtain ⟨v, hv, hve⟩ := usableUrl_true hC
                rw [h320 v hA hB hv hve] at h
                obtain ⟨rfl, rfl⟩ : v = u ∧ original_stem ++ extOrDefault (urlExt v) = fn := by
                  simpa using h
                rfl
            | false =>
                rw [hnone hA hB hC] at h
                cases h

/-- Witness for C4: with only tier 320 resolving, the cascade succeeds with
the 320-tier URL and the destination name keeps the original stem. -/
theorem download_cascade_spec_witness :
    download_lossless_music onlyTier320 (fun _ => ".flac") "MySong"
      = some ("http://host/track.flac", "MySong.flac") := by
  have h := (download_cascade_spec onlyTier320 (fun _ => ".flac") "MySong").2.2.1
    "http://host/track.flac" (by rfl) (by rfl) (by rfl) (by rfl)
  simpa [extOrDefault] using h

/-- The retry loop with `remaining` attempts left after the current one
makes at most `remaining + 1` attempts. -/
theorem retryLoop_attempts_le {ε α : Type} (attempt : ℕ → Except ε α) :
    ∀ remaining k, (retryLoop attempt k remaining).2.1 ≤ remaining + 1 := by
  intro remaining
  induction remaining with
  | zero => intro k; simp [retryLoop]
  | succ n ih =>
      intro k
      rw [retryLoop]
      cases hatt : attempt k with
      | ok a => simp
      | error e =>
          show (retryLoop attempt (k + 1) n).2.1 + 1 ≤ n + 1 + 1
          have := ih (k + 1)
          omega

/-- If every attempt in `[k, i)` fails and attempt `i` (within range)
succeeds, the loop returns that success after `i - k + 1` attempts, having
slept `2 ^ j` for each failed attempt `j`. -/
theorem retryLoop_first_ok {ε α : Type} (attempt : ℕ → Except ε α)
    (i : ℕ) (a : α) (hok : attempt i = .ok a) :
    ∀ remaining k, k ≤ i → i ≤ k + remaining →
      (∀ j, k ≤ j → j < i → ∃ e, attempt j = .error e) →
      retryLoop attempt k remaining =
        (.ok a, i - k + 1,
         (List.range' k (i - k)).map (fun j => (2 : ℚ) ^ j)) := by
  intro remaining
  induction remaining with
  | zero =>
      intro k hki hik _
      have hk : k = i := by omega
      subst hk
      rw [retryLoop, hok]
      simp
  | succ n ih =>
      intro k hki hik herr
      rcases Nat.eq_or_lt_of_le hki with rfl | hlt
      · rw [retryLoop, hok]
        simp
      · obtain ⟨e, he⟩ := herr k (le_refl k) hlt
        rw [retryLoop, he]
        show ((retryLoop attempt (k + 1) n).1,
              (retryLoop attempt (k + 1) n).2.1 + 1,
              ((2 : ℚ) ^ k) :: (retryLoop attempt (k + 1) n).2.2) = _
        rw [ih (k + 1) (by omega) (by omega)
          (fun j hj1 hj2 => herr j (by omega) hj2)]
        have h2 : i - k = (i - (k + 1)) + 1 := by omega
        rw [h2, List.range'_succ]
        simp

/-- If every attempt in `[k, k + remaining]` fails, the loop makes all
`remaining + 1` attempts, sleeps `2 ^ j` after each non-final attempt, and
surfaces the error of the final attempt. -/
theorem retryLoop_all_error {ε α : Type} (attempt : ℕ → Except ε α) :
    ∀ remaining k (e : ε), attempt (k + remaining) = .error e →
      (∀ j, k ≤ j → j < k + remaining → ∃ ej, attempt j = .error ej) →
      retryLoop attempt k remaining =
        (.error e, remaining + 1,
         (List.range' k remaining).map (fun j => (2 : ℚ) ^ j)) := by
  intro remaining
  induction remaining with
  | zero =>
      intro k e hlast _
      rw [retryLoop]
      rw [show k + 0 = k from rfl] at hlast
      rw [hlast]
      simp
  | succ n ih =>
      intro k e hlast herr
      obtain ⟨ek, hek⟩ := herr k (le_refl k) (by omega)
      rw [retryLoop, hek]
      show ((retryLoop attempt (k + 1) n).1,
            (retryLoop attempt (k + 1) n).2.1 + 1,
            ((2 : ℚ) ^ k) :: (retryLoop attempt (k + 1) n).2.2) = _
      rw [ih (k + 1) e (by rw [show k + 1 + n = k + (n + 1) from by omega]; exact hlast)
        (fun j hj1 hj2 => herr j (by omega) (by omega))]
      rw [List.range'_succ]
      simp

/-- C7: every call makes at most `retries + 1` attempts; when attempts
`0..i-1` fail and attempt `i ≤ retries` succeeds, the call returns that
success (no error surfaced) after backing off `2 ^ j` time units after each
failed attempt `j`; when every attempt fails, the error of the final
attempt is raised after `retries + 1` attempts. -/
theorem make_request_retry_spec {ε α : Type} (retries : ℕ)
    (attempt : ℕ → Except ε α) :
    ((make_request retries attempt).2.1 ≤ retries + 1) ∧
    (∀ i a, i ≤ retries → attempt i = .ok a →
      (∀ j, j < i → ∃ e, attempt j = .error e) →
      make_request retries attempt =
        (.ok a, i + 1, (List.range' 0 i).map (fun j => (2 : ℚ) ^ j))) ∧
    (∀ e, attempt retries = .error e →
      (∀ j, j < retries → ∃ ej, attempt j = .error ej) →
      make_request retries attempt =
        (.error e, retries + 1,
         (List.range' 0 retries).map (fun j => (2 : ℚ) ^ j))) := by
  refine ⟨retryLoop_attempts_le attempt retries 0, ?_, ?_⟩
  · intro i a hi hok herr
    have := retryLoop_first_ok attempt i a hok retries 0 (Nat.zero_le i)
      (by omega) (fun j _ hj => herr j hj)
    simpa using this
  · intro e hlast herr
    have := retryLoop_all_error attempt retries 0 e (by simpa using hlast)
      (fun j _ hj => herr j (by omega))
    simpa using this

/-- Witness for C7 at the specification scenario: with `retries = 3`, the
first two attempts fail and the third succeeds, so the call returns the
success after 3 attempts with backoff delays 1 and 2. -/
theorem make_request_retry_spec_witness :
    make_request 3 (fun k => if k < 2 then .error "boom" else .ok 42)
      = (.ok 42, 3, [1, 2]) := by
  have h := (make_request_retry_spec 3
      (fun k => if k < 2 then .error "boom" else .ok (42 : ℕ))).2.1 2 42
    (by omega) (by norm_num)
    (fun j hj => ⟨"boom", by
      match j, hj with
      | 0, _ => rfl
      | 1, _ => rfl⟩)
  rw [h]
  norm_num [List.range']

/-- Counterexample to C9 as stated: through the synchronous rate-limited
client, a `get_song_url` call with an unsupported source raises the
validation error on every attempt, and the generic exception handler
retries it — with `retries = 3`, 4 attempts are made (with backoff delays
1, 2, 4) instead of the claimed single non-retried attempt.  (No network
request is issued by any attempt: the outcome is the validation error.) -/
theorem validation_error_retried_counterexample :
    sync_rate_limited_get_song_url 3 "id1" "badsource" 999
      = (.error (.unsupportedSource "badsource"), 4, [1, 2, 4]) ∧
    (sync_rate_limited_get_song_url 3 "id1" "badsource" 999).2.1 ≠ 1 := by
  have hsrc : "badsource" ∉ supported_sources := by decide
  have key : sync_rate_limited_get_song_url 3 "id1" "badsource" 999
      = (.error (.unsupportedSource "badsource"), 4, [1, 2, 4]) := by
    unfold sync_rate_limited_get_song_url make_request
    simp [retryLoop, get_song_url, hsrc]
    norm_num
  refine ⟨key, ?_⟩
  rw [key]
  norm_num

/-- C9 as amended: an unsupported source, a tier outside
`{128, 192, 320, 740, 999}`, or a size outside `{300, 500}` fails
validation synchronously, before any network request is issued, and the
outcome of the call is that validation error; the asynchronous rate-limited
client never retries it (zero attempts of the retry loop), while the
synchronous rate-limited client's blanket exception handler re-runs the
failing call `retries` further times (with backoff) before surfacing the
same validation error — still without any network request, since every
attempt fails validation first. -/
theorem validation_before_network (track_id pic_id source : String)
    (br size : ℤ) (retries : ℕ) (α : Type)
    (network : RequestParams → ℕ → Except Unit α) :
    (source ∉ supported_sources ∨ br ∉ ([128, 192, 320, 740, 999] : List ℤ) →
      ∃ e, get_song_url track_id source br = .error e ∧
        async_rate_limited_get_song_url α retries track_id source br network
          = (.error (Sum.inl e), 0) ∧
        sync_rate_limited_get_song_url retries track_id source br
          = (.error e, retries + 1,
             (List.range' 0 retries).map (fun j => (2 : ℚ) ^ j))) ∧
    (source ∉ supported_sources ∨ size ∉ ([300, 500] : List ℤ) →
      ∃ e, get_album_art pic_id source size = .error e ∧
        async_rate_limited_get_album_art α retries pic_id source size network
          = (.error (Sum.inl e), 0) ∧
        sync_rate_limited_get_album_art retries pic_id source size
          = (.error e, retries + 1,
             (List.range' 0 retries).map (fun j => (2 : ℚ) ^ j))) := by
  have sync_song : ∀ e, get_song_url track_id source br = .error e →
      sync_rate_limited_get_song_url retries track_id source br
        = (.error e, retries + 1,
           (List.range' 0 retries).map (fun j => (2 : ℚ) ^ j)) := by
    intro e he
    have := retryLoop_all_error (fun _ => get_song_url track_id source br)
      retries 0 e (by simpa using he) (fun j _ _ => ⟨e, he⟩)
    simpa [sync_rate_limited_get_song_url, make_request] using this
  have sync_art : ∀ e, get_album_art pic_id source size = .error e →
      sync_rate_limited_get_album_art retries pic_id source size
        = (.error e, retries + 1,
           (List.range' 0 retries).map (fun j => (2 : ℚ) ^ j)) := by
    intro e he
    have := retryLoop_all_error (fun _ => get_album_art pic_id source size)
      retries 0 e (by simpa using he) (fun j _ _ => ⟨e, he⟩)
    simpa [sync_rate_limited_get_album_art, make_request] using this
  constructor
  · intro h
    have hval : ∃ e, get_song_url track_id source br = .error e := by
      by_cases hs : source ∈ supported_sources
      · have hb : br ∉ ([128, 192, 320, 740, 999] : List ℤ) := by
          rcases h with h | h
          · exact absurd hs h
          · exact h
        exact ⟨.unsupportedQuality br, by simp [get_song_url, hs, hb]⟩
      · exact ⟨.unsupportedSource source, by simp [get_song_url, hs]⟩
    obtain ⟨e, he⟩ := hval
    refine ⟨e, he, ?_, sync_song e he⟩
    simp [async_rate_limited_get_song_url, he]
  · intro h
    have hval : ∃ e, get_album_art pic_id source size = .error e := by
      by_cases hs : source ∈ supported_sources
      · have hb : size ∉ ([300, 500] : List ℤ) := by
          rcases h with h | h
          · exact absurd hs h
          · exact h
        exact ⟨.unsupportedSize size, by simp [get_album_art, hs, hb]⟩
      · exact ⟨.unsupportedSource source, by simp [get_album_art, hs]⟩
    obtain ⟨e, he⟩ := hval
    refine ⟨e, he, ?_, sync_art e he⟩
    simp [async_rate_limited_get_album_art, he]

/-- Witness for the amended C9 at a concrete call: an unsupported source
with `retries = 3`. -/
theorem validation_before_network_witness :
    ∃ e, get_song_url "id1" "badsource" 999 = .error e ∧
      async_rate_limited_get_song_url Unit 3 "id1" "badsource" 999
          (fun _ _ => .error ())
        = (.error (Sum.inl e), 0) ∧
      sync_rate_limited_get_song_url 3 "id1" "badsource" 999
        = (.error e, 3 + 1,
           (List.range' 0 3).map (fun j => (2 : ℚ) ^ j)) :=
  (validation_before_network "id1" "p1" "badsource" 999 300 3 Unit
    (fun _ _ => .error ())).1 (Or.inl (by decide))

/-! ## Rate-limiter window invariant (C1) -/

/-- Every element surviving the eviction `dropWhile (· ≤ c)` of a sorted
list is strictly above the cutoff. -/
theorem lt_of_mem_dropWhile_le {c : ℚ} :
    ∀ {l : List ℚ}, l.Sorted (· ≤ ·) →
      ∀ x ∈ l.dropWhile (fun t => t ≤ c), c < x := by
  intro l
  induction l with
  | nil => intro _ x hx; simp at hx
  | cons a l ih =>
      intro hs x hx
      by_cases ha : a ≤ c
      · rw [List.dropWhile_cons_of_pos (by simpa using ha)] at hx
        exact ih hs.of_cons x hx
      · rw [List.dropWhile_cons_of_neg (by simpa using ha)] at hx
        rcases List.mem_cons.mp hx with rfl | hx
        · exact not_le.mp ha
        · exact lt_of_lt_of_le (not_le.mp ha) ((List.sorted_cons.mp hs).1 x hx)

/-- Every element removed by the eviction is at or below the cutoff. -/
theorem le_of_mem_takeWhile_le {c : ℚ} {l : List ℚ} :
    ∀ x ∈ l.takeWhile (fun t => t ≤ c), x ≤ c := by
  intro x hx
  simpa using List.mem_takeWhile_imp hx

/-- Window counting distributes over append. -/
theorem countWindow_append (W t : ℚ) (l₁ l₂ : List ℚ) :
    countWindow W t (l₁ ++ l₂) = countWindow W t l₁ + countWindow W t l₂ := by
  simp [countWindow, List.filter_append]

/-- Window counting is bounded by the list length. -/
theorem countWindow_le_length (W t : ℚ) (l : List ℚ) :
    countWindow W t l ≤ l.length :=
  List.length_filter_le _ _

/-- A list entirely at or below the left window edge counts zero. -/
theorem countWindow_eq_zero {W t : ℚ} {l : List ℚ}
    (h : ∀ x ∈ l, x ≤ t - W) : countWindow W t l = 0 := by
  unfold countWindow
  rw [List.length_eq_zero]
  rw [List.filter_eq_nil_iff]
  intro a ha
  simp only [decide_eq_true_eq, not_and]
  intro hlt
  exact absurd (h a ha) (not_le.mpr hlt)

/-- Window count of a singleton. -/
theorem countWindow_singleton (W t e : ℚ) :
    countWindow W t [e] = if t - W < e ∧ e ≤ t then 1 else 0 := by
  by_cases h : t - W < e ∧ e ≤ t <;> simp [countWindow, h]

/-- Invariant carried along a run of admissions: the deque is a suffix of
the recorded history whose complement is stale, the deque is sorted, all
its entries are at or before the last admission time, it never exceeds
`m` entries, and every trailing window of the recorded history holds at
most `m` timestamps. -/
structure RLInv (m : ℕ) (W : ℚ) (s : RateLimiterRun) : Prop where
  decomp : ∃ pre, s.recorded = pre ++ s.deque ∧ ∀ x ∈ pre, x ≤ s.lastTime - W
  sorted : s.deque.Sorted (· ≤ ·)
  bounded : ∀ x ∈ s.deque, x ≤ s.lastTime
  len : s.deque.length ≤ m
  window : ∀ t, countWindow W t s.recorded ≤ m

/-- The initial run state satisfies the invariant. -/
theorem rlinv_init (m : ℕ) (W : ℚ) : RLInv m W ⟨[], 0, []⟩ := by
  refine ⟨⟨[], rfl, by simp⟩, List.sorted_nil, by simp, by simp, ?_⟩
  intro t
  simp [countWindow]

/-- Behavior of `check_rate_limit` when the evicted deque is under the
limit. -/
theorem check_rate_limit_not_full {m : ℕ} {W : ℚ} {requests : List ℚ}
    {now : ℚ} (h : ¬ m ≤ (evictStale W now requests).length) :
    check_rate_limit m W requests now = (evictStale W now requests, now) := by
  simp only [check_rate_limit]
  rw [if_neg h]

/-- Behavior of `check_rate_limit` when the evicted deque is full and the
sleep is positive: sleep until the oldest entry leaves the window, then
evict again. -/
theorem check_rate_limit_full {m : ℕ} {W : ℚ} {requests : List ℚ}
    {now t0 : ℚ} {rest : List ℚ}
    (hfull : m ≤ (evictStale W now requests).length)
    (hcons : evictStale W now requests = t0 :: rest)
    (hpos : 0 < W - (now - t0)) :
    check_rate_limit m W requests now =
      (evictStale W (now + (W - (now - t0))) (t0 :: rest),
       now + (W - (now - t0))) := by
  simp only [check_rate_limit]
  rw [if_pos hfull, hcons]
  simp only []
  rw [if_pos hpos]

/-- One admission preserves the invariant when the arrival delay is
nonnegative. -/
theorem admitStep_inv (m : ℕ) (W : ℚ) (hm : 0 < m) (hW : 0 < W)
    (s : RateLimiterRun) (inv : RLInv m W s) (d : ℚ) (hd : 0 ≤ d) :
    RLInv m W (admitStep m W s d) := by
  have hnow : s.lastTime ≤ s.lastTime + d := by linarith
  obtain ⟨pre, hrec, hpre⟩ := inv.decomp
  -- decompose the first eviction
  have hdeq : s.deque
      = s.deque.takeWhile (fun t => t ≤ s.lastTime + d - W)
        ++ evictStale W (s.lastTime + d) s.deque :=
    (List.takeWhile_append_dropWhile _ _).symm
  have hdropped : ∀ x ∈ s.deque.takeWhile (fun t => t ≤ s.lastTime + d - W),
      x ≤ s.lastTime + d - W := le_of_mem_takeWhile_le
  have hl1sub : List.Sublist (evictStale W (s.lastTime + d) s.deque) s.deque :=
    List.dropWhile_sublist _
  have hl1sorted : (evictStale W (s.lastTime + d) s.deque).Sorted (· ≤ ·) :=
    inv.sorted.sublist hl1sub
  have hl1bound : ∀ x ∈ evictStale W (s.lastTime + d) s.deque,
      x ≤ s.lastTime := fun x hx => inv.bounded x (hl1sub.subset hx)
  have hl1big : ∀ x ∈ evictStale W (s.lastTime + d) s.deque,
      s.lastTime + d - W < x := lt_of_mem_dropWhile_le inv.sorted
  have hl1len : (evictStale W (s.lastTime + d) s.deque).length
      ≤ s.deque.length := hl1sub.length_le
  by_cases hfull : m ≤ (evictStale W (s.lastTime + d) s.deque).length
  · -- the deque is full: sleep until the oldest entry leaves the window
    have hlen_eq : (evictStale W (s.lastTime + d) s.deque).length = m :=
      le_antisymm (hl1len.trans inv.len) hfull
    obtain ⟨t0, rest, hcons⟩ :
        ∃ t0 rest, evictStale W (s.lastTime + d) s.deque = t0 :: rest := by
      cases hc : evictStale W (s.lastTime + d) s.deque with
      | nil => rw [hc] at hlen_eq; simp at hlen_eq; omega
      | cons a l => exact ⟨a, l, rfl⟩
    have ht0 : s.lastTime + d - W < t0 :=
      hl1big t0 (by rw [hcons]; exact List.mem_cons_self t0 rest)
    have hpos : 0 < W - (s.lastTime + d - t0) := by linarith
    have hrest_len : rest.length + 1 = m := by
      rw [hcons] at hlen_eq; simpa using hlen_eq
    have hstep : admitStep m W s d =
        ⟨evictStale W (s.lastTime + d + (W - (s.lastTime + d - t0)))
            (t0 :: rest)
          ++ [s.lastTime + d + (W - (s.lastTime + d - t0))],
         s.lastTime + d + (W - (s.lastTime + d - t0)),
         s.recorded
          ++ [s.lastTime + d + (W - (s.lastTime + d - t0))]⟩ := by
      simp only [admitStep, admitRecord]
      rw [check_rate_limit_full hfull hcons hpos]
    rw [hstep]
    -- abbreviations for the second eviction
    have hnow2 : s.lastTime + d < s.lastTime + d + (W - (s.lastTime + d - t0)) := by
      linarith
    have hedge : s.lastTime + d + (W - (s.lastTime + d - t0)) - W = t0 := by
      ring
    have hl2sub : List.Sublist (evictStale W
        (s.lastTime + d + (W - (s.lastTime + d - t0))) (t0 :: rest))
        (t0 :: rest) := List.dropWhile_sublist _
    have hl2sorted :
        (evictStale W (s.lastTime + d + (W - (s.lastTime + d - t0)))
          (t0 :: rest)).Sorted (· ≤ ·) := by
      have hs1 : (t0 :: rest).Sorted (· ≤ ·) := by rw [← hcons]; exact hl1sorted
      exact hs1.sublist hl2sub
    have hl2bound : ∀ x ∈ evictStale W
        (s.lastTime + d + (W - (s.lastTime + d - t0))) (t0 :: rest),
        x ≤ s.lastTime := by
      intro x hx
      refine hl1bound x ?_
      rw [hcons]; exact hl2sub.subset hx
    have hl2big : ∀ x ∈ evictStale W
        (s.lastTime + d + (W - (s.lastTime + d - t0))) (t0 :: rest),
        t0 < x := by
      intro x hx
      have hs : (t0 :: rest).Sorted (· ≤ ·) := by rw [← hcons]; exact hl1sorted
      have := lt_of_mem_dropWhile_le hs x hx
      rwa [hedge] at this
    have hl2len : (evictStale W
        (s.lastTime + d + (W - (s.lastTime + d - t0))) (t0 :: rest)).length
        ≤ rest.length := by
      unfold evictStale
      rw [List.dropWhile_cons_of_pos (by simp [hedge])]
      exact (List.dropWhile_sublist _).length_le
    have hl2decomp : t0 :: rest
        = (t0 :: rest).takeWhile
            (fun t => t ≤ s.lastTime + d + (W - (s.lastTime + d - t0)) - W)
          ++ evictStale W (s.lastTime + d + (W - (s.lastTime + d - t0)))
              (t0 :: rest) :=
      (List.takeWhile_append_dropWhile _ _).symm
    refine ⟨?_, ?_, ?_, ?_, ?_⟩ <;> dsimp only
    · -- recorded decomposition
      refine ⟨pre ++ s.deque.takeWhile (fun t => t ≤ s.lastTime + d - W)
          ++ (t0 :: rest).takeWhile
            (fun t => t ≤ s.lastTime + d + (W - (s.lastTime + d - t0)) - W),
        ?_, ?_⟩
      · conv_lhs => rw [hrec, hdeq, hcons, hl2decomp]
        simp [List.append_assoc]
      · intro x hx
        simp only [List.mem_append] at hx
        rcases hx with (hx | hx) | hx
        · have := hpre x hx; linarith
        · have := hdropped x hx; linarith
        · have := le_of_mem_takeWhile_le x hx; linarith
    · -- sortedness of the new deque
      refine List.pairwise_append.mpr ⟨hl2sorted, List.pairwise_singleton _ _, ?_⟩
      intro x hx y hy
      rw [List.mem_singleton] at hy
      subst hy
      have := hl2bound x hx
      linarith
    · -- boundedness by the new last time
      intro x hx
      rcases List.mem_append.mp hx with hx | hx
      · have := hl2bound x hx; linarith
      · rw [List.mem_singleton] at hx; subst hx; linarith
    · -- length bound
      rw [List.length_append]
      simp only [List.length_singleton]
      omega
    · -- window bound
      intro t
      rw [countWindow_append, countWindow_singleton]
      by_cases hin : t - W < s.lastTime + d + (W - (s.lastTime + d - t0))
          ∧ s.lastTime + d + (W - (s.lastTime + d - t0)) ≤ t
      · rw [if_pos hin]
        obtain ⟨hin1, hin2⟩ := hin
        have hcw : countWindow W t s.recorded
            ≤ countWindow W t (evictStale W
                (s.lastTime + d + (W - (s.lastTime + d - t0))) (t0 :: rest)) := by
          conv_lhs => rw [hrec, hdeq, hcons, hl2decomp]
          rw [countWindow_append, countWindow_append, countWindow_append]
          rw [countWindow_eq_zero (l := pre) (fun x hx => by
            have := hpre x hx; linarith)]
          rw [countWindow_eq_zero (l := s.deque.takeWhile
              (fun t => t ≤ s.lastTime + d - W)) (fun x hx => by
            have := hdropped x hx; linarith)]
          rw [countWindow_eq_zero (l := (t0 :: rest).takeWhile
              (fun t => t ≤ s.lastTime + d + (W - (s.lastTime + d - t0)) - W))
            (fun x hx => by
              have := le_of_mem_takeWhile_le x hx; linarith)]
          omega
        have := (hcw.trans (countWindow_le_length _ _ _)).trans hl2len
        omega
      · rw [if_neg hin]
        have := inv.window t
        omega
  · -- the deque is under the limit: record immediately
    have hstep : admitStep m W s d =
        ⟨evictStale W (s.lastTime + d) s.deque ++ [s.lastTime + d],
         s.lastTime + d,
         s.recorded ++ [s.lastTime + d]⟩ := by
      simp only [admitStep, admitRecord]
      rw [check_rate_limit_not_full hfull]
    rw [hstep]
    refine ⟨?_, ?_, ?_, ?_, ?_⟩ <;> dsimp only
    · refine ⟨pre ++ s.deque.takeWhile (fun t => t ≤ s.lastTime + d - W),
        ?_, ?_⟩
      · conv_lhs => rw [hrec, hdeq]
        simp [List.append_assoc]
      · intro x hx
        rcases List.mem_append.mp hx with hx | hx
        · have := hpre x hx; linarith
        · exact hdropped x hx
    · refine List.pairwise_append.mpr ⟨hl1sorted, List.pairwise_singleton _ _, ?_⟩
      intro x hx y hy
      rw [List.mem_singleton] at hy
      subst hy
      have := hl1bound x hx
      linarith
    · intro x hx
      rcases List.mem_append.mp hx with hx | hx
      · have := hl1bound x hx; linarith
      · rw [List.mem_singleton] at hx; subst hx; exact le_refl _
    · rw [List.length_append]
      simp only [List.length_singleton]
      omega
    · intro t
      rw [countWindow_append, countWindow_singleton]
      by_cases hin : t - W < s.lastTime + d ∧ s.lastTime + d ≤ t
      · rw [if_pos hin]
        obtain ⟨hin1, hin2⟩ := hin
        have hcw : countWindow W t s.recorded
            ≤ countWindow W t (evictStale W (s.lastTime + d) s.deque) := by
          conv_lhs => rw [hrec, hdeq]
          rw [countWindow_append, countWindow_append]
          rw [countWindow_eq_zero (l := pre) (fun x hx => by
            have := hpre x hx; linarith)]
          rw [countWindow_eq_zero (l := s.deque.takeWhile
              (fun t => t ≤ s.lastTime + d - W)) (fun x hx => by
            have := hdropped x hx; linarith)]
          omega
        have := hcw.trans (countWindow_le_length _ _ _)
        omega
      · rw [if_neg hin]
        have := inv.window t
        omega

/-- The invariant holds after any run of admissions with nonnegative
inter-arrival delays. -/
theorem admitRun_inv (m : ℕ) (W : ℚ) (hm : 0 < m) (hW : 0 < W) :
    ∀ (delays : List ℚ), (∀ d ∈ delays, 0 ≤ d) →
      ∀ s, RLInv m W s → RLInv m W (delays.foldl (admitStep m W) s) := by
  intro delays
  induction delays with
  | nil => intro _ s hs; simpa using hs
  | cons d ds ih =>
      intro hd s hs
      simp only [List.foldl_cons]
      exact ih (fun x hx => hd x (List.mem_cons_of_mem d hx)) _
        (admitStep_inv m W hm hW s hs d (hd d (List.mem_cons_self d ds)))

/-- A call with no transient failure makes exactly one attempt and records
exactly one timestamp after its check: the general call model collapses to
the single admission step. -/
theorem makeRequestStep_no_retry (max_requests : ℕ) (time_window : ℚ)
    (retries : ℕ) (s : RateLimiterRun) (c : ℚ × ℕ) (h : c.2 = 0) :
    makeRequestStep max_requests time_window retries s c
      = admitStep max_requests time_window s c.1 := by
  obtain ⟨d, f⟩ := c
  simp only at h
  subst h
  simp only [makeRequestStep, admitStep, admitRecord, attemptTimes,
    Nat.zero_add, Nat.min_eq_left (by omega : 1 ≤ retries + 1),
    (show List.range 1 = [0] from rfl), List.map_cons, List.map_nil]
  norm_num

/-- A run in which no call retries coincides with the run of single
admissions at the same arrival delays. -/
theorem makeRequestRun_no_retry (max_requests : ℕ) (time_window : ℚ)
    (retries : ℕ) :
    ∀ (calls : List (ℚ × ℕ)), (∀ c ∈ calls, c.2 = 0) →
      ∀ s, calls.foldl (makeRequestStep max_requests time_window retries) s
        = (calls.map Prod.fst).foldl (admitStep max_requests time_window) s := by
  intro calls
  induction calls with
  | nil => intro _ s; rfl
  | cons c cs ih =>
      intro hc s
      simp only [List.foldl_cons, List.map_cons]
      rw [makeRequestStep_no_retry max_requests time_window retries s c
        (hc c (List.mem_cons_self c cs))]
      exact ih (fun x hx => hc x (List.mem_cons_of_mem c hx)) _

/-- Counterexample to C1 as stated: `_make_request` records one timestamp
per attempt after a single rate-limit check, so with `max_requests = 1`,
`time_window = 300`, `retries = 3`, one call whose first attempt fails
transiently records timestamps 0 and 1 — two recorded timestamps inside
the trailing window ending at time 1, exceeding `max_requests`. -/
theorem rate_limit_window_violated :
    (makeRequestRun 1 300 3 [(0, 1)]).recorded = [0, 1] ∧
    countWindow 300 1 (makeRequestRun 1 300 3 [(0, 1)]).recorded = 2 ∧
    ¬ countWindow 300 1 (makeRequestRun 1 300 3 [(0, 1)]).recorded ≤ 1 := by
  have hrec : (makeRequestRun 1 300 3 [(0, 1)]).recorded = [0, 1] := by
    show (makeRequestStep 1 300 3 ⟨[], 0, []⟩ (0, 1)).recorded = [0, 1]
    simp only [makeRequestStep, check_rate_limit, evictStale, attemptTimes]
    norm_num [List.range_succ]
  have hcnt : countWindow 300 1 (makeRequestRun 1 300 3 [(0, 1)]).recorded = 2 := by
    rw [hrec]
    norm_num [countWindow, List.filter_cons, List.filter_nil,
      decide_eq_true_eq]
  refine ⟨hrec, hcnt, ?_⟩
  rw [hcnt]
  norm_num

/-- C1 as amended: along every run of `_make_request` calls in which each
call succeeds on its first attempt — so each call records exactly one
timestamp after its rate-limit check — with positive window and limit and
nonnegative inter-arrival delays, the number of recorded timestamps within
any trailing `time_window` never exceeds `max_requests`.  (A call that
retries records one further timestamp per attempt after its single check
and can push the window count above `max_requests`.) -/
theorem rate_limit_window_no_retry (max_requests : ℕ) (time_window : ℚ)
    (retries : ℕ) (calls : List (ℚ × ℕ)) (hm : 0 < max_requests)
    (hW : 0 < time_window) (hcalls : ∀ c ∈ calls, 0 ≤ c.1 ∧ c.2 = 0)
    (t : ℚ) :
    countWindow time_window t
      (makeRequestRun max_requests time_window retries calls).recorded
      ≤ max_requests := by
  unfold makeRequestRun
  rw [makeRequestRun_no_retry max_requests time_window retries calls
    (fun c hc => (hcalls c hc).2)]
  exact (admitRun_inv max_requests time_window hm hW (calls.map Prod.fst)
    (fun d hd => by
      obtain ⟨c, hc, rfl⟩ := List.mem_map.mp hd
      exact (hcalls c hc).1)
    _ (rlinv_init max_requests time_window)).window t

/-- Witness for the amended C1 on a concrete run: limit 1 request per
window of 1, four back-to-back first-attempt-success calls, window ending
at time 5. -/
theorem rate_limit_window_no_retry_witness :
    countWindow 1 5
      (makeRequestRun 1 1 3 [(0, 0), (0, 0), (0, 0), (0, 0)]).recorded ≤ 1 :=
  rate_limit_window_no_retry 1 1 3 [(0, 0), (0, 0), (0, 0), (0, 0)]
    (by norm_num) (by norm_num)
    (by intro c hc; simp at hc; simp [hc]) 5

end MusicTools
